import Mathlib

/-!
Verification of the translation-rendering pipeline of
`weblate/trans/templatetags/translations.py`.

Python strings are modelled as `List Char`.  Each Python helper
(`fmt_whitespace`, `fmt_diff`, `fmt_highlights`, `fmt_search`,
`format_translation`, `check_severity`, `check_name`,
`check_description`) is translated to an executable Lean function of the
same name.  External collaborators (the Django `escape` function, the
diff engine `html_diff`, the defect lookup `highlight_string`, the
localization functions `ugettext`/`get_plural_name`, and the quality
check registry `CHECKS`) are passed in as explicit values, mirroring the
external-interface treatment of the specification.
-/

set_option maxRecDepth 100000

namespace Weblate

/-- Python strings are modelled as lists of characters. -/
abbrev Str := List Char

/-- Coerce a Lean string literal to the character-list model. -/
def str (s : String) : Str := s.data

/-- Django `escape` translates each of the five HTML-sensitive
characters to its entity (`django.utils.html.escape` uses a single
`str.translate` pass, i.e. a simultaneous per-character mapping). -/
def escapeChar (c : Char) : Str :=
  if c = '&' then str "&amp;"
  else if c = '<' then str "&lt;"
  else if c = '>' then str "&gt;"
  else if c = '"' then str "&quot;"
  else if c = '\'' then str "&#39;"
  else [c]

/-- Django `escape` on a whole string. -/
def htmlEscape (s : Str) : Str := s.flatMap escapeChar

/-- Does `rest` begin with the tail of one of the five entities that
`escapeChar` can produce after its leading ampersand? -/
def entityStart (rest : Str) : Bool :=
  (str "amp;").isPrefixOf rest || (str "lt;").isPrefixOf rest ||
  (str "gt;").isPrefixOf rest || (str "quot;").isPrefixOf rest ||
  (str "#39;").isPrefixOf rest

/-- Every ampersand in the string starts one of the five escape
entities; i.e. the string contains no "raw" ampersand. -/
def entityOK : Str → Bool
  | [] => true
  | c :: rest => if c = '&' then entityStart rest && entityOK rest else entityOK rest

/-- Boolean substring test (used to state that a marker or a label does
or does not occur inside a rendered value). -/
def hasSub (p : Str) : Str → Bool
  | [] => p.isEmpty
  | c :: rest => p.isPrefixOf (c :: rest) || hasSub p rest

lemma isPrefixOf_self_append (p t : Str) : p.isPrefixOf (p ++ t) = true := by
  induction p with
  | nil => simp
  | cons a as ih => simp [List.isPrefixOf_cons₂, ih]

lemma hasSub_of_parts (p l r : Str) (hp : p ≠ []) : hasSub p (l ++ (p ++ r)) = true := by
  induction l with
  | nil =>
      simp only [List.nil_append]
      cases hpr : p ++ r with
      | nil =>
          rcases p with _ | ⟨c, cs⟩
          · exact absurd rfl hp
          · simp at hpr
      | cons c cs =>
          simp only [hasSub, ← hpr, isPrefixOf_self_append, Bool.true_or]
  | cons a as ih =>
      simp only [List.cons_append, hasSub, List.append_eq, ih, Bool.or_true]

lemma escapeChar_no_lt (c : Char) : '<' ∉ escapeChar c := by
  by_cases h1 : c = '&'
  · subst h1; decide
  · by_cases h2 : c = '<'
    · subst h2; decide
    · by_cases h3 : c = '>'
      · subst h3; decide
      · by_cases h4 : c = '"'
        · subst h4; decide
        · by_cases h5 : c = '\''
          · subst h5; decide
          · simp only [escapeChar, h1, h2, h3, h4, h5, if_false]
            simp only [List.mem_singleton]
            intro h; exact h2 h.symm

lemma escapeChar_no_gt (c : Char) : '>' ∉ escapeChar c := by
  by_cases h1 : c = '&'
  · subst h1; decide
  · by_cases h2 : c = '<'
    · subst h2; decide
    · by_cases h3 : c = '>'
      · subst h3; decide
      · by_cases h4 : c = '"'
        · subst h4; decide
        · by_cases h5 : c = '\''
          · subst h5; decide
          · simp only [escapeChar, h1, h2, h3, h4, h5, if_false]
            simp only [List.mem_singleton]
            intro h; exact h3 h.symm

lemma htmlEscape_no_lt (s : Str) : '<' ∉ htmlEscape s := by
  induction s with
  | nil => simp [htmlEscape]
  | cons c cs ih =>
      simp only [htmlEscape, List.flatMap_cons, List.mem_append]
      rintro (h | h)
      · exact escapeChar_no_lt c h
      · exact ih h

lemma htmlEscape_no_gt (s : Str) : '>' ∉ htmlEscape s := by
  induction s with
  | nil => simp [htmlEscape]
  | cons c cs ih =>
      simp only [htmlEscape, List.flatMap_cons, List.mem_append]
      rintro (h | h)
      · exact escapeChar_no_gt c h
      · exact ih h

lemma entityOK_cons_of_ne (c : Char) (t : Str) (h : c ≠ '&') :
    entityOK (c :: t) = entityOK t := by
  simp [entityOK, h]

lemma entityOK_append_of_no_amp (tail rest : Str) (h : '&' ∉ tail) :
    entityOK (tail ++ rest) = entityOK rest := by
  induction tail with
  | nil => simp
  | cons c cs ih =>
      simp only [List.cons_append]
      rw [entityOK_cons_of_ne c _ (fun hc => h (hc ▸ List.mem_cons_self c cs))]
      exact ih (fun hm => h (List.mem_cons_of_mem _ hm))

lemma entityOK_escapeChar_append (c : Char) (t : Str) :
    entityOK (escapeChar c ++ t) = entityOK t := by
  by_cases h1 : c = '&'
  · subst h1
    have e : escapeChar '&' ++ t = '&' :: (str "amp;" ++ t) := rfl
    rw [e]
    have hs : entityStart (str "amp;" ++ t) = true := by
      simp [entityStart, isPrefixOf_self_append]
    simp [entityOK, hs, entityOK_append_of_no_amp (str "amp;") t (by decide)]
  · by_cases h2 : c = '<'
    · subst h2
      have e : escapeChar '<' ++ t = '&' :: (str "lt;" ++ t) := rfl
      rw [e]
      have hs : entityStart (str "lt;" ++ t) = true := by
        simp [entityStart, isPrefixOf_self_append]
      simp [entityOK, hs, entityOK_append_of_no_amp (str "lt;") t (by decide)]
    · by_cases h3 : c = '>'
      · subst h3
        have e : escapeChar '>' ++ t = '&' :: (str "gt;" ++ t) := rfl
        rw [e]
        have hs : entityStart (str "gt;" ++ t) = true := by
          simp [entityStart, isPrefixOf_self_append]
        simp [entityOK, hs, entityOK_append_of_no_amp (str "gt;") t (by decide)]
      · by_cases h4 : c = '"'
        · subst h4
          have e : escapeChar '"' ++ t = '&' :: (str "quot;" ++ t) := rfl
          rw [e]
          have hs : entityStart (str "quot;" ++ t) = true := by
            simp [entityStart, isPrefixOf_self_append]
          simp [entityOK, hs, entityOK_append_of_no_amp (str "quot;") t (by decide)]
        · by_cases h5 : c = '\''
          · subst h5
            have e : escapeChar '\'' ++ t = '&' :: (str "#39;" ++ t) := rfl
            rw [e]
            have hs : entityStart (str "#39;" ++ t) = true := by
              simp [entityStart, isPrefixOf_self_append]
            simp [entityOK, hs, entityOK_append_of_no_amp (str "#39;") t (by decide)]
          · have e : escapeChar c = [c] := by
              simp [escapeChar, h1, h2, h3, h4, h5]
            rw [e, List.singleton_append, entityOK_cons_of_ne c _ h1]

lemma entityOK_htmlEscape (s : Str) : entityOK (htmlEscape s) = true := by
  induction s with
  | nil => rfl
  | cons c cs ih =>
      simp only [htmlEscape, List.flatMap_cons] at *
      rw [entityOK_escapeChar_append, ih]

lemma escapeChar_sub_htmlEscape {c : Char} {s : Str} (h : c ∈ s) (hne : escapeChar c ≠ []) :
    hasSub (escapeChar c) (htmlEscape s) = true := by
  obtain ⟨l, r, rfl⟩ := List.append_of_mem h
  have e : htmlEscape (l ++ c :: r) = htmlEscape l ++ (escapeChar c ++ htmlEscape r) := by
    simp [htmlEscape, List.flatMap_append, List.flatMap_cons]
  rw [e]
  exact hasSub_of_parts _ _ _ hne

/-! ### Python `str.format` and the markup templates -/

/-- The `&#x7b;` character, written via its code so the templates below can
mention it. -/
def lbrace : Char := Char.ofNat 123

/-- The `&#x7d;` character. -/
def rbrace : Char := Char.ofNat 125

/-- An auto-numbered placeholder. -/
def ph : Str := [lbrace, rbrace]

/-- The positional placeholder number 0. -/
def ph0 : Str := [lbrace, '0', rbrace]

/-- The positional placeholder number 1. -/
def ph1 : Str := [lbrace, '1', rbrace]

/-- Parse an all-digit placeholder body. -/
def parseArgIndex (tok : Str) : Option Nat :=
  if tok ≠ [] ∧ tok.all Char.isDigit then
    some (tok.foldl (fun n c => n * 10 + (c.toNat - 48)) 0)
  else none

/-- One step of Python `str.format`: scan the template, fill auto-numbered
and positional placeholders from `args`.  Extra arguments are ignored, as
in Python.  (Fuel is the template length; it suffices because every step
consumes at least one template character.) -/
def pyFormatGo (args : List Str) : Nat → Nat → Str → Str
  | 0, _, s => s
  | _ + 1, _, [] => []
  | fuel + 1, auto, c :: rest =>
    if c = lbrace then
      let tok := rest.takeWhile (fun d => d ≠ rbrace)
      let rest1 := (rest.dropWhile (fun d => d ≠ rbrace)).drop 1
      if tok = [] then
        args.getD auto [] ++ pyFormatGo args fuel (auto + 1) rest1
      else
        match parseArgIndex tok with
        | some n => args.getD n [] ++ pyFormatGo args fuel auto rest1
        | none => c :: pyFormatGo args fuel auto rest
    else
      c :: pyFormatGo args fuel auto rest

/-- Python `template.format(*args)` (restricted to the placeholder shapes
the source uses: `&#x7b;&#x7d;`, `&#x7b;0&#x7d;`, `&#x7b;1&#x7d;`). -/
def pyFormat (t : Str) (args : List Str) : Str := pyFormatGo args t.length 0 t

/-- `HIGHLIGTH_SPACE = '<span class="hlspace">&#x7b;&#x7d;</span>&#x7b;&#x7d;'` (line 60). -/
def HIGHLIGTH_SPACE : Str := str "<span class=\"hlspace\">" ++ ph ++ str "</span>" ++ ph

/-- `SPACE_TEMPLATE` (line 61). -/
def SPACE_TEMPLATE : Str :=
  str "<span class=\"" ++ ph ++ str "\"><span class=\"sr-only\">" ++ ph ++ str "</span></span>"

/-- `SPACE_SPACE = SPACE_TEMPLATE.format("space-space", " ")` (line 62). -/
def SPACE_SPACE : Str := pyFormat SPACE_TEMPLATE [str "space-space", str " "]

/-- `SPACE_NL = HIGHLIGTH_SPACE.format(SPACE_TEMPLATE.format("space-nl", ""), "<br />")`
(line 63).  Note that both formats consume every placeholder. -/
def SPACE_NL : Str :=
  pyFormat HIGHLIGTH_SPACE [pyFormat SPACE_TEMPLATE [str "space-nl", str ""], str "<br />"]

/-- `SPACE_TAB = HIGHLIGTH_SPACE.format(SPACE_TEMPLATE.format("space-tab", "\t"), "")`
(line 64). -/
def SPACE_TAB : Str :=
  pyFormat HIGHLIGTH_SPACE [pyFormat SPACE_TEMPLATE [str "space-tab", str "\t"], str ""]

/-- `HL_CHECK` (lines 66-68): the defect marker template. -/
def HL_CHECK : Str :=
  str "<span class=\"hlcheck\">" ++ str "<span class=\"highlight-number\"></span>" ++
    ph0 ++ str "</span>"

/-! ### Whitespace visualization (`fmt_whitespace`, lines 101-114) -/

/-- `replace_whitespace` applied to a matched group of `n` spaces: every
space becomes `SPACE_SPACE` and the result is wrapped in the `hlspace`
span (`HIGHLIGTH_SPACE.format(spaces, "")`). -/
def wrapRun (n : Nat) : Str :=
  pyFormat HIGHLIGTH_SPACE [(List.replicate n SPACE_SPACE).flatten, str ""]

/-- Emit a pending run of `n` spaces according to `WHITESPACE_RE = (  +| $|^ )`:
a run of two or more spaces is always wrapped; a single space is wrapped
when it sits at the end of the string (`" $"`, which in Python also
matches just before a string-final newline) or at the very start
(`"^ "`); otherwise it is left as a plain space. -/
def wsFlush (startFlag atEnd : Bool) (n : Nat) : Str :=
  if n = 0 then []
  else if 2 ≤ n then wrapRun n
  else if atEnd then wrapRun 1
  else if startFlag then wrapRun 1
  else [' ']

/-- Left-to-right scan implementing `WHITESPACE_RE.sub(replace_whitespace, value)`:
`startFlag` records whether the current space run began at position 0,
`pending` counts the spaces of the current run. -/
def wsGo (startFlag : Bool) (pending : Nat) : Str → Str
  | [] => wsFlush startFlag true pending
  | c :: rest =>
    if c = ' ' then wsGo startFlag (pending + 1) rest
    else wsFlush startFlag (c = '\n' && rest.isEmpty) pending ++ c :: wsGo false 0 rest

/-- `fmt_whitespace` (lines 106-114): regex pass, then
`value.replace("\t", SPACE_TAB.format(ugettext("Tab character")))`. -/
def fmt_whitespace (gettext : Str → Str) (value : Str) : Str :=
  let v := wsGo true 0 value
  v.flatMap fun c =>
    if c = '\t' then pyFormat SPACE_TAB [gettext (str "Tab character")] else [c]

/-! ### Newline normalization and splitting -/

/-- `NEWLINES_RE.sub("\n", value)` with `NEWLINES_RE = \r\n|\r|\n` (line 71):
leftmost-first replacement of every line-ending variant by `"\n"`. -/
def normalizeNewlines : Str → Str
  | [] => []
  | '\r' :: '\n' :: rest => '\n' :: normalizeNewlines rest
  | '\r' :: rest => '\n' :: normalizeNewlines rest
  | c :: rest => c :: normalizeNewlines rest

/-- Python `value.split(sep)` for a one-character separator: an input with
`k` separators yields `k + 1` segments, including empty ones. -/
def splitOnChar (sep : Char) : Str → List Str
  | [] => [[]]
  | c :: rest =>
    match splitOnChar sep rest with
    | [] => [[]]
    | h :: t => if c = sep then [] :: h :: t else (c :: h) :: t

/-- Modelled from the spec: `split_plural` (from `weblate.trans.util`) is
not under src/; per spec §4.2 it splits a raw value at a fixed,
documented separator convention and returns at least one element even
for an empty or separator-free input.  We use the ASCII record-separator
character as the separator. -/
def splitPlural (s : Str) : List Str := splitOnChar (Char.ofNat 30) s

lemma splitOnChar_ne_nil (sep : Char) (s : Str) : splitOnChar sep s ≠ [] := by
  cases s with
  | nil => simp [splitOnChar]
  | cons c rest =>
      simp only [splitOnChar]
      cases h : splitOnChar sep rest with
      | nil => simp
      | cons a b => by_cases hc : c = sep <;> simp [hc]

/-! ### The diff stage (`fmt_diff`, lines 117-122) -/

/-- `fmt_diff`: passthrough without a reference, otherwise delegate to the
external diff engine on `(escape(diff[idx]), value)`.  The engine
`html_diff` is an external collaborator and is passed in. -/
def fmt_diff (htmlDiff : Str → Str → Str) (value : Str) (diff : Option (List Str))
    (idx : Nat) : Str :=
  match diff with
  | none => value
  | some d => htmlDiff (htmlEscape (d.getD idx [])) value

/-! ### The defect highlighter (`fmt_highlights`, lines 125-139) -/

/-- Python `value.find(pat, start)`: index of the first occurrence of
`pat` at or after `start`, `none` when there is no such occurrence. -/
def findFrom (s pat : Str) (start : Nat) : Option Nat :=
  (List.range (s.length + 1)).find? fun i =>
    decide (start ≤ i) && pat.isPrefixOf (s.drop i)

/-- The loop body of `fmt_highlights` (lines 130-138): for each snippet in
order, escape it, search at or after the cursor `startSearch`; on a hit
splice in the `HL_CHECK` marker and move the cursor just past it; on a
miss continue with the next snippet, value and cursor unchanged. -/
def fmt_highlights_go (value : Str) (startSearch : Nat) : List Str → Str
  | [] => value
  | h :: rest =>
    let htext := htmlEscape h
    match findFrom value htext startSearch with
    | some i =>
        let newpart := pyFormat HL_CHECK [htext]
        fmt_highlights_go (value.take i ++ newpart ++ value.drop (i + htext.length))
          (i + newpart.length) rest
    | none => fmt_highlights_go value startSearch rest

/-- `fmt_highlights`: passthrough for `unit is None`; otherwise obtain the
ordered defect snippets from the external lookup (`highlight_string`,
from `weblate.checks`, modelled as the supplied capability keyed by the
raw value, per spec §6) and run the cursor loop from 0. -/
def fmt_highlights (rawValue value : Str) (unit : Option (Str → List Str)) : Str :=
  match unit with
  | none => value
  | some highlightString => fmt_highlights_go value 0 (highlightString rawValue)

/-! ### The search highlighter (`fmt_search`, lines 142-159) -/

/-- Case-insensitive character comparison, as under `re.IGNORECASE`. -/
def lowerEq (a b : Char) : Bool := a.toLower == b.toLower

/-- Case-insensitive prefix test. -/
def ciPrefix : Str → Str → Bool
  | [], _ => true
  | _ :: _, [] => false
  | a :: as, b :: bs => lowerEq a b && ciPrefix as bs

/-- The replacement template `'<span class="hlmatch">\1</span>'`:
opening part, then the matched text, then the closing tag. -/
def hlmatchOpen : Str := str "<span class=\"hlmatch\">"

/-- The common closing tag. -/
def spanClose : Str := str "</span>"

/-- `re.sub(re.escape(term), r'<span class="hlmatch">\1</span>', value,
flags=re.IGNORECASE)` for the literal (escaped) pattern `p`: a single
global left-to-right scan wrapping each leftmost, non-overlapping,
case-insensitive occurrence; `\1` reproduces the matched text with its
original case.  (Fuel is the subject length.) -/
def subCIGo (p : Str) : Nat → Str → Str
  | 0, s => s
  | _ + 1, [] => []
  | fuel + 1, c :: rest =>
    if ciPrefix p (c :: rest) then
      hlmatchOpen ++ (c :: rest).take p.length ++ spanClose ++
        subCIGo p fuel ((c :: rest).drop p.length)
    else
      c :: subCIGo p fuel rest

/-- The case-insensitive global substitution pass of mode `search`. -/
def subCI (p s : Str) : Str := subCIGo p s.length s

/-- Python `s.replace(old, new)`: exact, literal, global, left-to-right,
non-overlapping; the replacement text is never rescanned. -/
def pyReplaceGo (old new : Str) : Nat → Str → Str
  | 0, s => s
  | _ + 1, [] => []
  | fuel + 1, c :: rest =>
    if old.isPrefixOf (c :: rest) then
      new ++ pyReplaceGo old new fuel ((c :: rest).drop old.length)
    else
      c :: pyReplaceGo old new fuel rest

/-- Python `s.replace(old, new)`. -/
def pyReplace (s old new : Str) : Str := pyReplaceGo old new s.length s

/-- `'<span class="&#x7b;0&#x7d;">&#x7b;1&#x7d;</span>'` (line 157). -/
def REPLACE_TEMPLATE : Str := str "<span class=\"" ++ ph0 ++ str "\">" ++ ph1 ++ str "</span>"

/-- `fmt_search` (lines 142-159).  An empty (Python-falsy) term is a
passthrough; mode `search` runs the case-insensitive pass on the escaped
term; modes `replacement`/`replaced` run the exact `str.replace` with a
mode-named span class; any other mode falls through to `return value`. -/
def fmt_search (value searchMatch matchMode : Str) : Str :=
  if searchMatch = [] then value
  else
    let t := htmlEscape searchMatch
    if matchMode = str "search" then subCI t value
    else if matchMode = str "replacement" ∨ matchMode = str "replaced" then
      pyReplace value t (pyFormat REPLACE_TEMPLATE [matchMode, t])
    else value

/-! ### The orchestrator (`format_translation`, lines 162-233) -/

/-- The `while len(diff) < len(plurals): diff.append(diff[0])` loop
(lines 192-193), with fuel `n` (one append per missing form). -/
def padDiffGo (n : Nat) : Nat → List Str → List Str
  | 0, d => d
  | fuel + 1, d => if d.length < n then padDiffGo n fuel (d ++ [d.headD []]) else d

/-- Align a split diff reference to `n` current plural forms by
right-padding with its first form; a reference with at least `n` forms
is returned unchanged. -/
def padDiff (d : List Str) (n : Nat) : List Str := padDiffGo n n d

/-- Python `plurals[-1:]`. -/
def lastSlice (l : List Str) : List Str :=
  match l.getLast? with
  | none => []
  | some x => [x]

/-- The plural forms the per-form loop iterates over: the split value,
reduced to its last form when `int(num_plurals) <= 1` (lines 176-183). -/
def retainedForms (value : Str) (numPlurals : Int) : List Str :=
  let plurals := splitPlural value
  if numPlurals ≤ 1 then lastSlice plurals else plurals

/-- Python `enumerate`, starting at `i`. -/
def enumerate (i : Nat) : List α → List (Nat × α)
  | [] => []
  | a :: as => (i, a) :: enumerate (i + 1) as

/-- One rendered plural form: `&#x7b;"title": ..., "content": ..., "copy": ...&#x7d;`
(line 231). -/
structure Part where
  title : Str
  content : Str
  copy : Str
deriving Repr, DecidableEq

/-- The body of the per-plural loop (lines 198-231): escape, capture
`copy`, diff, defect highlights, search highlights, newline
normalization, split into paragraphs, whitespace formatting per
paragraph, plural label when more than one form is shown, and the join
with the `newline` marker `SPACE_NL.format(ugettext("New line"))`. -/
def renderPart (gettext : Str → Str) (htmlDiff : Str → Str → Str)
    (diffAligned : Option (List Str)) (unit : Option (Str → List Str))
    (searchMatch matchMode : Str) (pluralsLen : Nat) (pluralName : Nat → Str)
    (idx : Nat) (rawValue : Str) : Part :=
  let value0 := htmlEscape rawValue
  let copy := value0
  let v1 := fmt_diff htmlDiff value0 diffAligned idx
  let v2 := fmt_highlights rawValue v1 unit
  let v3 := fmt_search v2 searchMatch matchMode
  let v4 := normalizeNewlines v3
  let paras := (splitOnChar '\n' v4).map (fmt_whitespace gettext)
  let title := if 1 < pluralsLen then pluralName idx else []
  let newline := pyFormat SPACE_NL [gettext (str "New line")]
  { title := title, content := List.intercalate newline paras, copy := copy }

/-- `format_translation` (lines 162-233), returning the `items` list.
`gettext`, `htmlDiff`, `pluralName` (for `plural.get_plural_name`) and
`unit` (the defect lookup) stand for the external collaborators. -/
def format_translation (gettext : Str → Str) (htmlDiff : Str → Str → Str)
    (value : Str) (pluralName : Nat → Str) (diff : Option Str)
    (searchMatch matchMode : Str) (numPlurals : Int)
    (unit : Option (Str → List Str)) : List Part :=
  let plurals := retainedForms value numPlurals
  let diffAligned := diff.map fun d => padDiff (splitPlural d) plurals.length
  (enumerate 0 plurals).map fun p =>
    renderPart gettext htmlDiff diffAligned unit searchMatch matchMode
      plurals.length pluralName p.1 p.2

/-! ### The quality-check registry lookups (lines 236-260) -/

/-- One entry of the `CHECKS` registry. -/
structure CheckData where
  severity : Str
  name : Str
  description : Str

/-- `check_severity` (lines 236-242): `escape(CHECKS[check].severity)`,
or `"info"` when the identifier is unknown (`KeyError`). -/
def check_severity (checks : Str → Option CheckData) (check : Str) : Str :=
  match checks check with
  | some c => htmlEscape c.severity
  | none => str "info"

/-- `check_name` (lines 245-251): `escape(CHECKS[check].name)`, or
`escape(check)` when the identifier is unknown. -/
def check_name (checks : Str → Option CheckData) (check : Str) : Str :=
  match checks check with
  | some c => htmlEscape c.name
  | none => htmlEscape check

/-- `check_description` (lines 254-260): `escape(CHECKS[check].description)`,
or `escape(check)` when the identifier is unknown. -/
def check_description (checks : Str → Option CheckData) (check : Str) : Str :=
  match checks check with
  | some c => htmlEscape c.description
  | none => htmlEscape check

/-! ### Structural lemmas about the orchestrator -/

lemma renderPart_copy (gettext : Str → Str) (htmlDiff : Str → Str → Str)
    (diffAligned : Option (List Str)) (unit : Option (Str → List Str))
    (searchMatch matchMode : Str) (pluralsLen : Nat) (pluralName : Nat → Str)
    (idx : Nat) (rawValue : Str) :
    (renderPart gettext htmlDiff diffAligned unit searchMatch matchMode pluralsLen
      pluralName idx rawValue).copy = htmlEscape rawValue := rfl

lemma renderPart_title (gettext : Str → Str) (htmlDiff : Str → Str → Str)
    (diffAligned : Option (List Str)) (unit : Option (Str → List Str))
    (searchMatch matchMode : Str) (pluralsLen : Nat) (pluralName : Nat → Str)
    (idx : Nat) (rawValue : Str) :
    (renderPart gettext htmlDiff diffAligned unit searchMatch matchMode pluralsLen
      pluralName idx rawValue).title
      = if 1 < pluralsLen then pluralName idx else [] := rfl

lemma enumerate_map_snd {α β : Type} (g : α → β) (l : List α) : ∀ i : Nat,
    (enumerate i l).map (fun p => g p.2) = l.map g := by
  induction l with
  | nil => intro i; rfl
  | cons a as ih => intro i; simp [enumerate, ih]

lemma enumerate_map_fst {α β : Type} (g : Nat → β) (l : List α) : ∀ i : Nat,
    (enumerate i l).map (fun p => g p.1)
      = (List.range l.length).map fun k => g (i + k) := by
  induction l with
  | nil => intro i; rfl
  | cons a as ih =>
      intro i
      simp only [enumerate, List.map_cons, ih, List.length_cons,
        List.range_succ_eq_map, List.map_map]
      refine congrArg₂ _ (congrArg g (by omega)) ?_
      refine List.map_congr_left fun k _ => ?_
      show g (i + 1 + k) = g (i + (k + 1))
      exact congrArg g (by omega)

lemma format_translation_map_copy (gettext : Str → Str) (htmlDiff : Str → Str → Str)
    (value : Str) (pluralName : Nat → Str) (diff : Option Str)
    (searchMatch matchMode : Str) (numPlurals : Int) (unit : Option (Str → List Str)) :
    (format_translation gettext htmlDiff value pluralName diff searchMatch matchMode
        numPlurals unit).map Part.copy
      = (retainedForms value numPlurals).map htmlEscape := by
  simp only [format_translation, List.map_map]
  have e : (Part.copy ∘ fun p : Nat × Str =>
      renderPart gettext htmlDiff
        ((Option.map fun d => padDiff (splitPlural d) (retainedForms value numPlurals).length) diff)
        unit searchMatch matchMode (retainedForms value numPlurals).length pluralName p.1 p.2)
      = fun p : Nat × Str => htmlEscape p.2 := funext fun p => rfl
  rw [e, enumerate_map_snd]

lemma format_translation_map_title (gettext : Str → Str) (htmlDiff : Str → Str → Str)
    (value : Str) (pluralName : Nat → Str) (diff : Option Str)
    (searchMatch matchMode : Str) (numPlurals : Int) (unit : Option (Str → List Str)) :
    (format_translation gettext htmlDiff value pluralName diff searchMatch matchMode
        numPlurals unit).map Part.title
      = (List.range (retainedForms value numPlurals).length).map
          fun i => if 1 < (retainedForms value numPlurals).length then pluralName i else [] := by
  simp only [format_translation, List.map_map]
  have e : (Part.title ∘ fun p : Nat × Str =>
      renderPart gettext htmlDiff
        ((Option.map fun d => padDiff (splitPlural d) (retainedForms value numPlurals).length) diff)
        unit searchMatch matchMode (retainedForms value numPlurals).length pluralName p.1 p.2)
      = fun p : Nat × Str =>
          (fun i => if 1 < (retainedForms value numPlurals).length then pluralName i else []) p.1 :=
    funext fun p => rfl
  rw [e, enumerate_map_fst
    (fun i => if 1 < (retainedForms value numPlurals).length then pluralName i else [])
    (retainedForms value numPlurals) 0]
  simp

/-! ### Lemmas about diff-reference padding -/

lemma padDiffGo_eq (n : Nat) : ∀ (fuel : Nat) (d : List Str),
    padDiffGo n fuel d
      = d ++ List.replicate (min fuel (n - d.length)) (d.headD []) := by
  intro fuel
  induction fuel with
  | zero => intro d; simp [padDiffGo]
  | succ f ih =>
      intro d
      by_cases h : d.length < n
      · rw [padDiffGo, if_pos h, ih]
        have hh : (d ++ [d.headD []]).headD [] = d.headD [] := by cases d <;> simp
        rw [hh, List.append_assoc, List.singleton_append]
        have hl : (d ++ [d.headD []]).length = d.length + 1 := by simp
        rw [hl]
        have harith : min (f + 1) (n - d.length) = min f (n - (d.length + 1)) + 1 := by omega
        rw [harith, List.replicate_succ]
      · rw [padDiffGo, if_neg h]
        have h0 : n - d.length = 0 := by omega
        simp [h0]

lemma padDiff_eq (d : List Str) (n : Nat) :
    padDiff d n = d ++ List.replicate (n - d.length) (d.headD []) := by
  rw [padDiff, padDiffGo_eq, Nat.min_eq_right (Nat.sub_le n d.length)]

lemma getD_replicate {α : Type} (x d : α) : ∀ (k m : Nat), m < k →
    (List.replicate k x).getD m d = x := by
  intro k
  induction k with
  | zero => intro m h; omega
  | succ k ih =>
      intro m h
      cases m with
      | zero => simp [List.replicate_succ]
      | succ m => simp only [List.replicate_succ, List.getD_cons_succ]; exact ih m (by omega)

lemma lastSlice_eq (l : List Str) (h : l ≠ []) : lastSlice l = [l.getLastD []] := by
  rw [lastSlice]
  cases hl : l.getLast? with
  | none => exact absurd (List.getLast?_eq_none_iff.mp hl) h
  | some x => simp [List.getLastD_eq_getLast?, hl]

/-! ### First-occurrence characterization of `findFrom` -/

lemma find?_range'_min (q : Nat → Bool) : ∀ (n s i : Nat),
    (List.range' s n).find? q = some i → ∀ j, s ≤ j → j < i → q j = false := by
  intro n
  induction n with
  | zero => intro s i h j _ _; simp [List.range'] at h
  | succ n ih =>
      intro s i h j hsj hji
      rw [List.range'_succ] at h
      by_cases hq : q s = true
      · rw [List.find?_cons_of_pos _ hq] at h
        have : s = i := by injection h
        omega
      · rw [List.find?_cons_of_neg _ hq] at h
        rcases Nat.lt_or_ge s j with hlt | hge
        · exact ih (s + 1) i h j (by omega) hji
        · have hj : j = s := by omega
          subst hj
          simpa using hq

/-- Python `value.find(pat, start)` returns the index of the first
occurrence at or after `start`: the hit is at or after `start`, the
pattern matches there, and it matches at no earlier in-range position. -/
lemma findFrom_some_spec (s pat : Str) (start i : Nat)
    (h : findFrom s pat start = some i) :
    start ≤ i ∧ pat.isPrefixOf (s.drop i) = true
    ∧ ∀ j, start ≤ j → j < i → pat.isPrefixOf (s.drop j) = false := by
  have hq := List.find?_some h
  simp only [Bool.and_eq_true, decide_eq_true_eq] at hq
  refine ⟨hq.1, hq.2, ?_⟩
  intro j hsj hji
  have h' : (List.range' 0 (s.length + 1)).find?
      (fun k => decide (start ≤ k) && pat.isPrefixOf (s.drop k)) = some i := by
    rw [← List.range_eq_range']
    exact h
  have hmin := find?_range'_min _ (s.length + 1) 0 i h' j (by omega) hji
  cases hp : pat.isPrefixOf (s.drop j) with
  | false => rfl
  | true =>
      exfalso
      rw [hp, Bool.and_true, decide_eq_false_iff_not] at hmin
      exact hmin hsj

lemma findFrom_none_of_no_occurrence (s pat : Str) (start : Nat)
    (h : ∀ j, j < s.length + 1 → start ≤ j → pat.isPrefixOf (s.drop j) = false) :
    findFrom s pat start = none := by
  refine List.find?_eq_none.mpr fun x hx => ?_
  simp only [List.mem_range] at hx
  intro hq
  rw [Bool.and_eq_true, decide_eq_true_eq] at hq
  have := h x hx hq.1
  rw [this] at hq
  exact Bool.false_ne_true hq.2

/-! ### Fuel-independence of the substitution scans -/

lemma subCIGo_fuel (p : Str) (hp : p ≠ []) : ∀ (f1 : Nat) (s : Str) (f2 : Nat),
    s.length ≤ f1 → s.length ≤ f2 → subCIGo p f1 s = subCIGo p f2 s := by
  have hp1 : 1 ≤ p.length := by
    cases p with
    | nil => exact absurd rfl hp
    | cons a as => simp
  intro f1
  induction f1 with
  | zero =>
      intro s f2 h1 h2
      have hs : s = [] := List.length_eq_zero.mp (by omega)
      subst hs
      cases f2 <;> rfl
  | succ f ih =>
      intro s f2 h1 h2
      cases s with
      | nil => cases f2 <;> rfl
      | cons c rest =>
          cases f2 with
          | zero => simp at h2
          | succ f2 =>
              simp only [subCIGo]
              by_cases hm : ciPrefix p (c :: rest) = true
              · rw [if_pos hm, if_pos hm]
                have hd : ((c :: rest).drop p.length).length ≤ f := by
                  simp only [List.length_drop, List.length_cons] at *
                  omega
                have hd2 : ((c :: rest).drop p.length).length ≤ f2 := by
                  simp only [List.length_drop, List.length_cons] at *
                  omega
                rw [ih _ f2 hd hd2]
              · rw [if_neg hm, if_neg hm]
                have hr : rest.length ≤ f := by
                  simp only [List.length_cons] at h1
                  omega
                have hr2 : rest.length ≤ f2 := by
                  simp only [List.length_cons] at h2
                  omega
                rw [ih _ f2 hr hr2]

lemma subCI_match (p s : Str) (hp : p ≠ []) (h : ciPrefix p s = true) :
    subCI p s = hlmatchOpen ++ s.take p.length ++ spanClose ++ subCI p (s.drop p.length) := by
  have hp1 : 1 ≤ p.length := by
    cases p with
    | nil => exact absurd rfl hp
    | cons a as => simp
  cases s with
  | nil =>
      cases p with
      | nil => exact absurd rfl hp
      | cons a as => simp [ciPrefix] at h
  | cons c rest =>
      show subCIGo p ((c :: rest).length) (c :: rest) = _
      simp only [List.length_cons, subCIGo, if_pos h]
      rw [subCIGo_fuel p hp rest.length _ ((c :: rest).drop p.length).length
        (by simp only [List.length_drop, List.length_cons]; omega) (le_refl _)]
      rfl

lemma subCI_nomatch (p : Str) (c : Char) (rest : Str)
    (h : ciPrefix p (c :: rest) = false) :
    subCI p (c :: rest) = c :: subCI p rest := by
  show subCIGo p ((c :: rest).length) (c :: rest) = _
  simp only [List.length_cons, subCIGo, h]
  rfl

lemma pyReplaceGo_fuel (old new : Str) (hp : old ≠ []) : ∀ (f1 : Nat) (s : Str) (f2 : Nat),
    s.length ≤ f1 → s.length ≤ f2 → pyReplaceGo old new f1 s = pyReplaceGo old new f2 s := by
  have hp1 : 1 ≤ old.length := by
    cases old with
    | nil => exact absurd rfl hp
    | cons a as => simp
  intro f1
  induction f1 with
  | zero =>
      intro s f2 h1 h2
      have hs : s = [] := List.length_eq_zero.mp (by omega)
      subst hs
      cases f2 <;> rfl
  | succ f ih =>
      intro s f2 h1 h2
      cases s with
      | nil => cases f2 <;> rfl
      | cons c rest =>
          cases f2 with
          | zero => simp at h2
          | succ f2 =>
              simp only [pyReplaceGo]
              by_cases hm : old.isPrefixOf (c :: rest) = true
              · rw [if_pos hm, if_pos hm]
                have hd : ((c :: rest).drop old.length).length ≤ f := by
                  simp only [List.length_drop, List.length_cons] at *
                  omega
                have hd2 : ((c :: rest).drop old.length).length ≤ f2 := by
                  simp only [List.length_drop, List.length_cons] at *
                  omega
                rw [ih _ f2 hd hd2]
              · rw [if_neg hm, if_neg hm]
                have hr : rest.length ≤ f := by
                  simp only [List.length_cons] at h1
                  omega
                have hr2 : rest.length ≤ f2 := by
                  simp only [List.length_cons] at h2
                  omega
                rw [ih _ f2 hr hr2]

lemma pyReplace_match (s old new : Str) (hp : old ≠ []) (h : old.isPrefixOf s = true) :
    pyReplace s old new = new ++ pyReplace (s.drop old.length) old new := by
  have hp1 : 1 ≤ old.length := by
    cases old with
    | nil => exact absurd rfl hp
    | cons a as => simp
  cases s with
  | nil =>
      cases old with
      | nil => exact absurd rfl hp
      | cons a as => simp at h
  | cons c rest =>
      show pyReplaceGo old new ((c :: rest).length) (c :: rest) = _
      simp only [List.length_cons, pyReplaceGo, if_pos h]
      rw [pyReplaceGo_fuel old new hp rest.length _ ((c :: rest).drop old.length).length
        (by simp only [List.length_drop, List.length_cons]; omega) (le_refl _)]
      rfl

lemma pyReplace_nomatch (old new : Str) (c : Char) (rest : Str)
    (h : old.isPrefixOf (c :: rest) = false) :
    pyReplace (c :: rest) old new = c :: pyReplace rest old new := by
  show pyReplaceGo old new ((c :: rest).length) (c :: rest) = _
  simp only [List.length_cons, pyReplaceGo, h]
  rfl

/-! ## Claim theorems -/

/-- C2: the defect highlighter scans snippets in order with a cursor
starting at 0; the search finds the first occurrence of the escaped
snippet at or after the cursor (first conjunct), on a hit exactly that
occurrence is replaced by the marker and the cursor moves to just past
the inserted marker (second conjunct); consequently, for two identical
snippets `"foo"` occurring at positions 0 and 10 of `"foo1234567foo"`,
both occurrences end up in separate, non-overlapping `HL_CHECK` markers
and the text inside the first marker is not re-wrapped (third
conjunct). -/
theorem c2_defect_cursor_monotonicity :
    (∀ (s pat : Str) (start i : Nat), findFrom s pat start = some i →
        start ≤ i ∧ pat.isPrefixOf (s.drop i) = true
        ∧ ∀ j, start ≤ j → j < i → pat.isPrefixOf (s.drop j) = false)
    ∧ (∀ (value : Str) (start : Nat) (snippet : Str) (rest : List Str) (i : Nat),
        findFrom value (htmlEscape snippet) start = some i →
        fmt_highlights_go value start (snippet :: rest)
          = fmt_highlights_go
              (value.take i ++ pyFormat HL_CHECK [htmlEscape snippet]
                ++ value.drop (i + (htmlEscape snippet).length))
              (i + (pyFormat HL_CHECK [htmlEscape snippet]).length) rest)
    ∧ fmt_highlights (str "foo1234567foo") (htmlEscape (str "foo1234567foo"))
        (some fun _ => [str "foo", str "foo"])
      = pyFormat HL_CHECK [str "foo"] ++ str "1234567" ++ pyFormat HL_CHECK [str "foo"] := by
  refine ⟨findFrom_some_spec, ?_, by decide⟩
  intro value start snippet rest i h
  simp only [fmt_highlights_go, h]

/-- Witness for C2: a hit of `"ab"` in `"abcab"` from cursor 1 lands at
index 3, not at the pre-cursor index 0 and not at the non-matching
index 1; and one found-snippet step on `"ab"` splices the marker and
advances the cursor. -/
theorem c2_witness :
    (1 ≤ 3 ∧ (str "ab").isPrefixOf ((str "abcab").drop 3) = true)
    ∧ (str "ab").isPrefixOf ((str "abcab").drop 1) = false
    ∧ fmt_highlights_go (str "ab") 0 [str "b"]
        = fmt_highlights_go
            ((str "ab").take 1 ++ pyFormat HL_CHECK [htmlEscape (str "b")]
              ++ (str "ab").drop (1 + (htmlEscape (str "b")).length))
            (1 + (pyFormat HL_CHECK [htmlEscape (str "b")]).length) [] := by
  obtain ⟨h1, h2, h3⟩ := c2_defect_cursor_monotonicity.1 (str "abcab") (str "ab") 1 3 (by decide)
  exact ⟨⟨h1, h2⟩, h3 1 (by decide) (by decide),
    c2_defect_cursor_monotonicity.2.1 (str "ab") 0 (str "b") [] 1 (by decide)⟩

/-- C4 (code bug): `SPACE_NL` is built with every placeholder already
consumed, so `SPACE_NL.format(ugettext("New line"))` (line 186) drops
its argument; on the two-paragraph value `"a\nb"` the join marker is
inserted, but the localized "New line" label never appears in the
rendered content. -/
theorem c4_newline_label_dropped :
    pyFormat SPACE_NL [str "New line"] = SPACE_NL
    ∧ (Part.content ((format_translation id (fun _ v => v) (str "a\nb") (fun _ => []) none
        [] (str "search") 2 none).headD ⟨[], [], []⟩))
        = str "a" ++ SPACE_NL ++ str "b"
    ∧ hasSub (str "New line")
        (Part.content ((format_translation id (fun _ v => v) (str "a\nb") (fun _ => []) none
          [] (str "search") 2 none).headD ⟨[], [], []⟩)) = false :=
  ⟨by decide, by decide, by decide⟩

/-- C5: with a nonempty term, mode `search` wraps every case-insensitive
occurrence of the escaped term in an `hlmatch` marker in one global
left-to-right non-overlapping pass (term `"Hello"` in `"say hello now"`
wraps `"hello"`; both `"Hello"` and `"hello"` are wrapped in
`"Hello hello"`), while modes `replaced` and `replacement` wrap only
exact case-sensitive occurrences in a marker whose class equals the mode
name, leaving differently-cased occurrences alone. -/
theorem c5_search_modes :
    (∀ (value term : Str), term ≠ [] →
        fmt_search value term (str "search") = subCI (htmlEscape term) value
        ∧ fmt_search value term (str "replaced")
            = pyReplace value (htmlEscape term)
                (pyFormat REPLACE_TEMPLATE [str "replaced", htmlEscape term])
        ∧ fmt_search value term (str "replacement")
            = pyReplace value (htmlEscape term)
                (pyFormat REPLACE_TEMPLATE [str "replacement", htmlEscape term]))
    ∧ (∀ (p s : Str), p ≠ [] → ciPrefix p s = true →
        subCI p s = hlmatchOpen ++ s.take p.length ++ spanClose ++ subCI p (s.drop p.length))
    ∧ (∀ (p : Str) (c : Char) (rest : Str), ciPrefix p (c :: rest) = false →
        subCI p (c :: rest) = c :: subCI p rest)
    ∧ (∀ (old new s : Str), old ≠ [] → old.isPrefixOf s = true →
        pyReplace s old new = new ++ pyReplace (s.drop old.length) old new)
    ∧ (∀ (old new : Str) (c : Char) (rest : Str), old.isPrefixOf (c :: rest) = false →
        pyReplace (c :: rest) old new = c :: pyReplace rest old new)
    ∧ fmt_search (str "say hello now") (str "Hello") (str "search")
      = str "say " ++ (hlmatchOpen ++ str "hello" ++ spanClose) ++ str " now"
    ∧ fmt_search (str "Hello hello") (str "Hello") (str "search")
      = (hlmatchOpen ++ str "Hello" ++ spanClose) ++ str " " ++
          (hlmatchOpen ++ str "hello" ++ spanClose)
    ∧ fmt_search (str "Hello hello HELLO") (str "Hello") (str "replaced")
      = str "<span class=\"replaced\">Hello</span> hello HELLO"
    ∧ fmt_search (str "xHellox") (str "Hello") (str "replacement")
      = str "x<span class=\"replacement\">Hello</span>x" := by
  refine ⟨?_, subCI_match, subCI_nomatch, fun old new s h1 h2 => pyReplace_match s old new h1 h2,
    pyReplace_nomatch, by decide, by decide, by decide, by decide⟩
  intro value term ht
  refine ⟨?_, ?_, ?_⟩ <;> simp [fmt_search, ht] <;>
    exact fun h => absurd h (by decide)

/-- Witness for C5: the general conjuncts applied at concrete inputs —
dispatch at term `"a"`, a match step of `"h"` on `"hi"`, a non-match
step of `"h"` on `"xi"`, and the corresponding `str.replace` steps. -/
theorem c5_witness :
    fmt_search (str "hi") (str "a") (str "search") = subCI (htmlEscape (str "a")) (str "hi")
    ∧ subCI (str "h") (str "hi")
        = hlmatchOpen ++ (str "hi").take 1 ++ spanClose ++ subCI (str "h") ((str "hi").drop 1)
    ∧ subCI (str "h") (str "xi") = 'x' :: subCI (str "h") (str "i")
    ∧ pyReplace (str "hi") (str "h") (str "Z")
        = str "Z" ++ pyReplace ((str "hi").drop 1) (str "h") (str "Z")
    ∧ pyReplace (str "xi") (str "h") (str "Z") = 'x' :: pyReplace (str "i") (str "h") (str "Z") :=
  ⟨(c5_search_modes.1 (str "hi") (str "a") (by decide)).1,
    c5_search_modes.2.1 (str "h") (str "hi") (by decide) (by decide),
    c5_search_modes.2.2.1 (str "h") 'x' (str "i") (by decide),
    c5_search_modes.2.2.2.1 (str "h") (str "Z") (str "hi") (by decide) (by decide),
    c5_search_modes.2.2.2.2.1 (str "h") (str "Z") 'x' (str "i") (by decide)⟩

/-- C6: whitespace visualization marks exactly the flagged space runs
and every tab: `"a  b"` yields one marked run of length 2, `" a"` marks
exactly the leading space, `"a\tb"` marks the tab exactly once, while a
single interior space (`"a b"`) is untouched and a single trailing space
(`"a "`) is marked. -/
theorem c6_whitespace_marking :
    fmt_whitespace id (str "a  b") = str "a" ++ wrapRun 2 ++ str "b"
    ∧ fmt_whitespace id (str " a") = wrapRun 1 ++ str "a"
    ∧ fmt_whitespace id (str "a\tb") = str "a" ++ SPACE_TAB ++ str "b"
    ∧ fmt_whitespace id (str "a b") = str "a b"
    ∧ fmt_whitespace id (str "a ") = str "a" ++ wrapRun 1 :=
  ⟨by decide, by decide, by decide, by decide, by decide⟩

/-- C8: a defect snippet whose escaped text has no occurrence at or
after the cursor is skipped silently: the value and the cursor are
unchanged, there is no fallback search from the start (the recursive
call keeps the same `startSearch`), no error is possible (the function
is total), and scanning continues with the next snippet. -/
theorem c8_unfound_snippet_skipped (value : Str) (start : Nat) (snippet : Str)
    (rest : List Str)
    (h : ∀ j, j < value.length + 1 → start ≤ j →
        (htmlEscape snippet).isPrefixOf (value.drop j) = false) :
    fmt_highlights_go value start (snippet :: rest) = fmt_highlights_go value start rest := by
  have hn : findFrom value (htmlEscape snippet) start = none :=
    findFrom_none_of_no_occurrence value (htmlEscape snippet) start h
  simp only [fmt_highlights_go, hn]

/-- Witness for C8 at a concrete unfound snippet. -/
theorem c8_witness :
    fmt_highlights_go (str "bar") 0 [str "zzz"] = fmt_highlights_go (str "bar") 0 [] :=
  c8_unfound_snippet_skipped (str "bar") 0 (str "zzz") [] (by decide)

/-- C9 counterexample: the claim says the name lookup returns the raw
identifier echoed back for an unknown identifier, but the code returns
`escape(check)`; for the unknown identifier `"a&b"` the result is
`"a&amp;b"`, not `"a&b"`. -/
theorem c9_counterexample :
    check_name (fun _ => none) (str "a&b") ≠ str "a&b" := by decide

/-- C9 (amended): for every identifier not present in the registry, the
severity lookup returns `"info"` and the name and description lookups
return the HTML-escape of the identifier (which is the identifier itself
whenever it contains no HTML-sensitive character); all three lookups are
total, so none can raise. -/
theorem c9_unknown_check_fallbacks (checks : Str → Option CheckData) (check : Str)
    (h : checks check = none) :
    check_severity checks check = str "info"
    ∧ check_name checks check = htmlEscape check
    ∧ check_description checks check = htmlEscape check := by
  simp [check_severity, check_name, check_description, h]

/-- Witness for C9 at a concrete unknown identifier. -/
theorem c9_witness :
    check_severity (fun _ => none) (str "x") = str "info"
    ∧ check_name (fun _ => none) (str "x") = htmlEscape (str "x")
    ∧ check_description (fun _ => none) (str "x") = htmlEscape (str "x") :=
  c9_unknown_check_fallbacks (fun _ => none) (str "x") rfl

/-- C10: with a nonempty term and any mode other than `search`,
`replacement` and `replaced`, the search highlighter falls through to
`return value`: an unrecognized mode is a silent passthrough, not an
error. -/
theorem c10_unknown_mode_passthrough (value searchMatch matchMode : Str)
    (hne : searchMatch ≠ [])
    (h1 : matchMode ≠ str "search") (h2 : matchMode ≠ str "replacement")
    (h3 : matchMode ≠ str "replaced") :
    fmt_search value searchMatch matchMode = value := by
  simp [fmt_search, hne, h1, h2, h3]

/-- Witness for C10 at a concrete unrecognized mode. -/
theorem c10_witness : fmt_search (str "abc") (str "a") (str "zen") = str "abc" :=
  c10_unknown_mode_passthrough (str "abc") (str "a") (str "zen")
    (by decide) (by decide) (by decide) (by decide)

/-- C1: for every input and every retained plural form, the `copy` field
of the corresponding rendered part is exactly the HTML-escape of that
raw form — it is captured right after escaping and no later stage (diff,
defect, search, whitespace) touches it, for any choice of diff
reference, defect lookup, search term and mode; consequently every
`copy` contains no raw `<` or `>`, every ampersand in it starts an
escape entity, it contains no injected marker, and each HTML-sensitive
character of the raw form appears in it as its escaped entity. -/
theorem c1_copy_is_pure_escape (gettext : Str → Str) (htmlDiff : Str → Str → Str)
    (value : Str) (pluralName : Nat → Str) (diff : Option Str)
    (searchMatch matchMode : Str) (numPlurals : Int) (unit : Option (Str → List Str)) :
    (format_translation gettext htmlDiff value pluralName diff searchMatch matchMode
        numPlurals unit).map Part.copy
      = (retainedForms value numPlurals).map htmlEscape
    ∧ (∀ p ∈ format_translation gettext htmlDiff value pluralName diff searchMatch
          matchMode numPlurals unit,
        '<' ∉ p.copy ∧ '>' ∉ p.copy ∧ entityOK p.copy = true)
    ∧ (∀ f ∈ retainedForms value numPlurals,
        ('<' ∈ f → hasSub (str "&lt;") (htmlEscape f) = true)
        ∧ ('>' ∈ f → hasSub (str "&gt;") (htmlEscape f) = true)
        ∧ ('&' ∈ f → hasSub (str "&amp;") (htmlEscape f) = true)) := by
  refine ⟨format_translation_map_copy gettext htmlDiff value pluralName diff searchMatch
    matchMode numPlurals unit, ?_, ?_⟩
  · intro p hp
    have hmem : p.copy ∈ (format_translation gettext htmlDiff value pluralName diff
        searchMatch matchMode numPlurals unit).map Part.copy :=
      List.mem_map_of_mem Part.copy hp
    rw [format_translation_map_copy] at hmem
    obtain ⟨f, _, hf⟩ := List.mem_map.mp hmem
    rw [← hf]
    exact ⟨htmlEscape_no_lt f, htmlEscape_no_gt f, entityOK_htmlEscape f⟩
  · intro f _
    refine ⟨fun h => ?_, fun h => ?_, fun h => ?_⟩
    · have e : escapeChar '<' = str "&lt;" := rfl
      have hs := escapeChar_sub_htmlEscape h (by rw [e]; decide)
      rwa [e] at hs
    · have e : escapeChar '>' = str "&gt;" := rfl
      have hs := escapeChar_sub_htmlEscape h (by rw [e]; decide)
      rwa [e] at hs
    · have e : escapeChar '&' = str "&amp;" := rfl
      have hs := escapeChar_sub_htmlEscape h (by rw [e]; decide)
      rwa [e] at hs

/-- Witness for C1 at a concrete input containing `<` and `&`. -/
theorem c1_witness :
    '<' ∉ Part.copy ((format_translation id (fun _ v => v) (str "a<b&c") (fun _ => [])
        none [] (str "search") 2 none).headD ⟨[], [], []⟩)
    ∧ hasSub (str "&lt;") (htmlEscape (str "a<b&c")) = true := by
  constructor
  · exact ((c1_copy_is_pure_escape id (fun _ v => v) (str "a<b&c") (fun _ => []) none []
      (str "search") 2 none).2.1 _ (by decide)).1
  · exact ((c1_copy_is_pure_escape id (fun _ v => v) (str "a<b&c") (fun _ => []) none []
      (str "search") 2 none).2.2 (str "a<b&c") (by decide)).1 (by decide)

/-- C3: when the split diff reference has fewer forms than the retained
current value, the aligned reference has exactly as many forms as the
current value, the extra forms all equal the reference's first form, and
a reference that is long enough is used as-is — alignment never
truncates; the padding function is total, so it never raises. -/
theorem c3_diff_reference_alignment (cur diffRaw : Str) (numPlurals : Int) :
    ((splitPlural diffRaw).length < (retainedForms cur numPlurals).length →
      (padDiff (splitPlural diffRaw) (retainedForms cur numPlurals).length).length
        = (retainedForms cur numPlurals).length
      ∧ ∀ i, (splitPlural diffRaw).length ≤ i →
          i < (retainedForms cur numPlurals).length →
          (padDiff (splitPlural diffRaw) (retainedForms cur numPlurals).length).getD i []
            = (splitPlural diffRaw).headD [])
    ∧ ((retainedForms cur numPlurals).length ≤ (splitPlural diffRaw).length →
        padDiff (splitPlural diffRaw) (retainedForms cur numPlurals).length
          = splitPlural diffRaw) := by
  constructor
  · intro h
    constructor
    · rw [padDiff_eq]
      simp only [List.length_append, List.length_replicate]
      omega
    · intro i h1 h2
      rw [padDiff_eq, List.getD_append_right _ _ _ _ h1]
      exact getD_replicate _ _ _ _ (by omega)
  · intro h
    rw [padDiff_eq]
    have h0 : (retainedForms cur numPlurals).length - (splitPlural diffRaw).length = 0 := by
      omega
    simp [h0]

/-- Witness for C3: a two-form current value against a one-form diff
reference. -/
theorem c3_witness :
    (padDiff (splitPlural (str "x")) (retainedForms (str "a\x1eb") 2).length).length
      = (retainedForms (str "a\x1eb") 2).length
    ∧ (padDiff (splitPlural (str "x")) (retainedForms (str "a\x1eb") 2).length).getD 1 []
      = (splitPlural (str "x")).headD [] := by
  have h := (c3_diff_reference_alignment (str "a\x1eb") (str "x") 2).1 (by decide)
  exact ⟨h.1, h.2 1 (by decide) (by decide)⟩

/-- C7: when the plural-form count parameter is at most 1, only the last
plural form of the split value is retained (the rendered parts' `copy`
list is exactly the escape of that last form); and the titles of the
rendered parts are the localized plural-category labels exactly when
more than one form is retained, and empty otherwise. -/
theorem c7_singular_retention_and_titles (gettext : Str → Str) (htmlDiff : Str → Str → Str)
    (value : Str) (pluralName : Nat → Str) (diff : Option Str)
    (searchMatch matchMode : Str) (numPlurals : Int) (unit : Option (Str → List Str)) :
    (numPlurals ≤ 1 →
      (format_translation gettext htmlDiff value pluralName diff searchMatch matchMode
          numPlurals unit).map Part.copy
        = [htmlEscape ((splitPlural value).getLastD [])])
    ∧ (format_translation gettext htmlDiff value pluralName diff searchMatch matchMode
          numPlurals unit).map Part.title
        = (List.range (retainedForms value numPlurals).length).map
            fun i => if 1 < (retainedForms value numPlurals).length then pluralName i else [] := by
  constructor
  · intro h
    rw [format_translation_map_copy]
    have h1 : retainedForms value numPlurals = [(splitPlural value).getLastD []] := by
      rw [retainedForms]
      simp only [h, if_pos]
      exact lastSlice_eq _ (splitOnChar_ne_nil _ _)
    rw [h1]
    rfl
  · exact format_translation_map_title gettext htmlDiff value pluralName diff searchMatch
      matchMode numPlurals unit

/-- Witness for C7 with `num_plurals = 1` and a two-form value. -/
theorem c7_witness :
    (format_translation id (fun _ v => v) (str "one\x1etwo") (fun _ => str "f") none []
        (str "search") 1 none).map Part.copy
      = [htmlEscape ((splitPlural (str "one\x1etwo")).getLastD [])] :=
  (c7_singular_retention_and_titles id (fun _ v => v) (str "one\x1etwo") (fun _ => str "f")
    none [] (str "search") 1 none).1 (by decide)

end Weblate
